import Mathlib

/-!
Verification of the battery-history module (zmk-module-battery-history).

The embedding follows `src/battery_history.c` (bounded history buffer with
FIFO eviction, settings persistence, recording policy),
`src/battery_history/battery_history_split.c` (relay of history-entry events
to the central half) and `src/studio/custom_handler.c` (the studio RPC
handler).  The capacity `MAX_HISTORY_ENTRIES`
(`CONFIG_ZMK_BATTERY_HISTORY_MAX_ENTRIES`) is a parameter `N`; machine
integers are modelled as `Nat`/`Int` (the values involved — counts, levels,
timestamps — stay far below any overflow boundary in every statement below).
-/

/-- `struct battery_history_entry` from `include/zmk/battery_history.h`:
a `uint32_t` timestamp and a `uint8_t` battery percentage. -/
structure battery_history_entry where
  timestamp : Nat
  battery_percentage : Nat
deriving Repr, DecidableEq

/-- The all-zero entry: static storage in C is zero-initialised, so the
`history` array starts as `N` copies of this. -/
def zeroEntry : battery_history_entry := ⟨0, 0⟩

/-- The mutable state of `battery_history.c`: the fixed-size array
`static struct battery_history_entry history[MAX_HISTORY_ENTRIES]` (modelled
as a list whose length is the capacity `N`) together with
`static int history_count`. -/
structure BhState where
  history : List battery_history_entry
  history_count : Nat
deriving Repr, DecidableEq

/-- The state at process start: a zero-initialised array and `history_count = 0`. -/
def initBh (N : Nat) : BhState :=
  { history := List.replicate N zeroEntry, history_count := 0 }

/-- Well-formedness of a state for capacity `N`: the array has exactly `N`
slots and the count stays within them. -/
def wfBh (N : Nat) (s : BhState) : Prop :=
  s.history.length = N ∧ s.history_count ≤ N

instance (N : Nat) (s : BhState) : Decidable (wfBh N s) := by
  unfold wfBh; exact inferInstance

/-- The visible buffer contents: the first `history_count` slots of the
array, oldest first (this is what `memcpy(entries, history, count * ...)`
exposes). -/
def entriesOf (s : BhState) : List battery_history_entry :=
  s.history.take s.history_count

/-- The in-place left shift of `add_history_entry`
(`history[i] = history[i + 1]` for `i < MAX_HISTORY_ENTRIES - 1`): every
slot takes its right neighbour's value and the final slot keeps its own. -/
def shiftLeft : List battery_history_entry → List battery_history_entry
  | [] => []
  | e :: t => t ++ [(e :: t).getLastD zeroEntry]

/-- `add_history_entry` (battery_history.c:53-69): at capacity, shift the
array left (dropping the oldest entry, index 0) and clamp the count to
`N - 1`; then write the new entry at index `history_count` and increment
the count. -/
def add_history_entry (N : Nat) (s : BhState)
    (timestamp battery_percentage : Nat) : BhState :=
  let s1 := if s.history_count ≥ N then
      { history := shiftLeft s.history, history_count := N - 1 }
    else s
  { history := s1.history.set s1.history_count ⟨timestamp, battery_percentage⟩,
    history_count := s1.history_count + 1 }

/-- `EINVAL` from errno: handlers return `-EINVAL` on invalid input. -/
def EINVAL : Int := 22

/-- `sizeof(history_count)`: the byte width of the persisted count
(`int`, 4 bytes). -/
def countSize : Nat := 4

/-- `sizeof(struct battery_history_entry)`: `uint32_t` plus `uint8_t`,
padded to 8 bytes by the 4-byte alignment of the timestamp. -/
def entrySize : Nat := 8

/-- The blob stored under the `battery_history/count` key: its byte length
and the integer value it holds.  `settings_save_one` always writes exactly
`countSize` bytes, but a pre-existing store may hold a blob of any length,
so the length is kept explicit for the load-time size check. -/
structure CountBlob where
  len : Nat
  value : Nat
deriving Repr, DecidableEq

/-- The key-value settings store, restricted to the two keys the module
uses: `battery_history/count` and `battery_history/entries`.  `none` means
the key has never been written.  The entries blob is modelled at entry
granularity (its byte length is `length * entrySize`; blobs that are not a
whole number of entries never arise from this module's saves). -/
structure Store where
  count_blob : Option CountBlob
  entries_blob : Option (List battery_history_entry)
deriving Repr, DecidableEq

/-- A store with neither key present (first run). -/
def emptyStore : Store := ⟨none, none⟩

/-- The `count` branch of `settings_load_handler` (battery_history.c:117-122):
reject a blob whose size differs from `sizeof(history_count)` with
`-EINVAL`; otherwise `read_cb` copies the stored value into `history_count`
and returns the number of bytes read. -/
def load_count_key (s : BhState) (b : CountBlob) : Int × BhState :=
  if b.len ≠ countSize then (-EINVAL, s)
  else (Int.ofNat b.len, { s with history_count := b.value })

/-- The `entries` branch of `settings_load_handler`
(battery_history.c:123-132): reject a blob larger than `sizeof(history)`
(`N * entrySize` bytes) with `-EINVAL`; otherwise `read_cb` copies the blob
over the start of the array and returns the number of bytes read.
`history_count` is not touched by this branch. -/
def load_entries_key (N : Nat) (s : BhState)
    (eb : List battery_history_entry) : Int × BhState :=
  if eb.length * entrySize > N * entrySize then (-EINVAL, s)
  else (Int.ofNat (eb.length * entrySize),
        { s with history := eb ++ s.history.drop eb.length })

/-- The startup load (`settings_load_subtree` driving
`settings_load_handler` once per present key, count first as saved):
each key's handler runs on the state left by the previous one; a handler
error leaves that key's effect out but does not roll anything back. -/
def load_from_store (N : Nat) (store : Store) (s : BhState) : BhState :=
  let s1 := match store.count_blob with
    | none => s
    | some b => (load_count_key s b).2
  match store.entries_blob with
  | none => s1
  | some eb => (load_entries_key N s1 eb).2

/-- `save_to_storage` (battery_history.c:74-96): write the count key; on
failure return the error at once (the entries write is skipped).  Then,
only if `history_count > 0`, write the first `history_count` entries under
the entries key.  `rcCount` and `rcEntries` are the return codes the
settings substrate gives the two `settings_save_one` calls (0 = success);
a failed write leaves its key unchanged. -/
def save_to_storage (s : BhState) (store : Store)
    (rcCount rcEntries : Int) : Int × Store :=
  if rcCount ≠ 0 then (rcCount, store)
  else
    let store1 := { store with count_blob := some ⟨countSize, s.history_count⟩ }
    if s.history_count > 0 then
      if rcEntries ≠ 0 then (rcEntries, store1)
      else (0, { store1 with entries_blob := some (entriesOf s) })
    else (0, store1)

/-- `battery_history_get_count` (battery_history.c:207-209). -/
def battery_history_get_count (s : BhState) : Nat :=
  s.history_count

/-- `battery_history_get_entries` (battery_history.c:211-219): reject
`max_entries <= 0` with `-EINVAL` (the NULL-pointer check has no
counterpart in the model); otherwise copy
`min(history_count, max_entries)` entries from the start of the array and
return them. -/
def battery_history_get_entries (s : BhState) (max_entries : Int) :
    Except Int (List battery_history_entry) :=
  if max_entries ≤ 0 then .error (-EINVAL)
  else
    let count := min s.history_count max_entries.toNat
    .ok (s.history.take count)

/-- `battery_history_clear` (battery_history.c:221-228): zero the count
(the array is left as it is) and persist via `save_to_storage`, returning
its code. -/
def battery_history_clear (s : BhState) (store : Store)
    (rcCount rcEntries : Int) : Int × BhState × Store :=
  let s' := { s with history_count := 0 }
  let (rc, store') := save_to_storage s' store rcCount rcEntries
  (rc, s', store')

/-- `save_battery_state` (battery_history.c:101-110), the periodic-tick
work handler: read the charge, append it with the current timestamp,
persist.  The battery reading and clock are inputs. -/
def save_battery_state (N : Nat) (now battery : Nat)
    (s : BhState) (store : Store) (rcCount rcEntries : Int) :
    BhState × Store :=
  let s' := add_history_entry N s now battery
  let (_, store') := save_to_storage s' store rcCount rcEntries
  (s', store')

/-- `battery_state_changed_listener` (battery_history.c:142-166): on an
empty buffer append unconditionally; otherwise compare against
`history[history_count - 1].battery_percentage` and append only when the
absolute difference is at least 5.  Every append is followed by
`save_to_storage`. -/
def battery_state_changed_listener (N : Nat) (now state_of_charge : Nat)
    (s : BhState) (store : Store) (rcCount rcEntries : Int) :
    BhState × Store :=
  if s.history_count = 0 then
    let s' := add_history_entry N s now state_of_charge
    let (_, store') := save_to_storage s' store rcCount rcEntries
    (s', store')
  else
    let last := (s.history.getD (s.history_count - 1) zeroEntry).battery_percentage
    let diff := ((state_of_charge : Int) - (last : Int)).natAbs
    if diff ≥ 5 then
      let s' := add_history_entry N s now state_of_charge
      let (_, store') := save_to_storage s' store rcCount rcEntries
      (s', store')
    else (s, store)

/-- The history-entry shape of the split module
(`zmk/battery_history/battery_history.h`, `battery_level` field) as used by
`battery_history_split.c` through `ev->entry`. -/
structure bh_split_entry where
  timestamp : Nat
  battery_level : Nat
deriving Repr, DecidableEq

/-- `struct zmk_battery_history_entry_event` as read by
`battery_history_split.c`: the entry plus its position in the stream. -/
structure zmk_battery_history_entry_event where
  entry : bh_split_entry
  entry_index : Nat
  total_entries : Nat
  is_last : Bool
deriving Repr, DecidableEq

/-- The `battery_history_entry` payload of
`struct zmk_split_transport_peripheral_event` built in
`battery_history_split.c:48-59`. -/
structure peripheral_transport_msg where
  timestamp : Nat
  battery_level : Nat
  entry_index : Nat
  total_entries : Nat
  is_last : Bool
deriving Repr, DecidableEq

/-- Modelled from the spec: the sender side of the relay protocol.  The code
that raises one `zmk_battery_history_entry_event` per buffer entry after an
append (`zmk_battery_history_trigger_send` and the event definition in
`zmk/battery_history/events/battery_history_entry_event.h`) is not among the
repository files under src/; following §4.4 of the spec, the full current
buffer is emitted as one chunk per entry, oldest first, `index` zero-based,
`total` fixed to the buffer count at stream start, `is_last` true exactly on
the final index. -/
def stream_buffer (buf : List battery_history_entry) :
    List zmk_battery_history_entry_event :=
  (List.range buf.length).map fun i =>
    { entry := { timestamp := (buf.getD i zeroEntry).timestamp,
                 battery_level := (buf.getD i zeroEntry).battery_percentage },
      entry_index := i,
      total_entries := buf.length,
      is_last := decide (i = buf.length - 1) }

/-- `battery_history_peripheral_listener`
(`battery_history_split.c:37-67`): forward one history-entry event to the
central half as a transport message, copying every field. -/
def battery_history_peripheral_listener (ev : zmk_battery_history_entry_event) :
    peripheral_transport_msg :=
  { timestamp := ev.entry.timestamp,
    battery_level := ev.entry.battery_level,
    entry_index := ev.entry_index,
    total_entries := ev.total_entries,
    is_last := ev.is_last }

/-- The decoded `zmk_template_Request` of `custom_handler.c`: the two known
request tags plus any other tag value (`which_request_type`). -/
inductive TemplateRequest where
  | get_battery_history
  | clear_battery_history
  | unknown (tag : Nat)
deriving Repr, DecidableEq

/-- The `zmk_template_Response` variants `custom_handler.c` produces. -/
inductive TemplateResponse where
  | error (message : String)
  | battery_history (current_battery : Nat) (total_entries : Nat)
      (entries : List battery_history_entry)
  | clear_battery_history (success : Bool)
deriving Repr, DecidableEq

/-- `handle_get_battery_history_request` (custom_handler.c:94-129): current
charge, total count, and the entries fetched with
`max_entries = CONFIG_ZMK_BATTERY_HISTORY_MAX_ENTRIES = N`; a negative
fetch result is propagated. -/
def handle_get_battery_history_request (N : Nat) (cur_battery : Nat)
    (s : BhState) : Except Int TemplateResponse :=
  match battery_history_get_entries s (Int.ofNat N) with
  | .error rc => .error rc
  | .ok entries =>
      .ok (.battery_history cur_battery s.history_count entries)

/-- `handle_clear_battery_history_request` (custom_handler.c:134-152):
clear, report `success = (rc == 0)`, and return 0 (the handler itself
never fails). -/
def handle_clear_battery_history_request (s : BhState) (store : Store)
    (rcCount rcEntries : Int) : TemplateResponse × BhState × Store :=
  let (rc, s', store') := battery_history_clear s store rcCount rcEntries
  (.clear_battery_history (rc == 0), s', store')

/-- `battery_history_rpc_handle_request` (custom_handler.c:48-89).
`decoded` is the result of `pb_decode` on the raw payload (`none` =
decode failure, external to the model).  The handler fills an error
response when decoding fails, when the tag is unknown, or when a
sub-handler returns nonzero; it always returns `true`.  The resulting
buffer/store state is carried alongside. -/
def battery_history_rpc_handle_request (N : Nat) (cur_battery : Nat)
    (decoded : Option TemplateRequest) (s : BhState) (store : Store)
    (rcCount rcEntries : Int) :
    TemplateResponse × BhState × Store × Bool :=
  match decoded with
  | none => (.error "Failed to decode request", s, store, true)
  | some .get_battery_history =>
      match handle_get_battery_history_request N cur_battery s with
      | .error _ => (.error "Failed to process request", s, store, true)
      | .ok resp => (resp, s, store, true)
  | some .clear_battery_history =>
      let (resp, s', store') :=
        handle_clear_battery_history_request s store rcCount rcEntries
      (resp, s', store', true)
  | some (.unknown _) => (.error "Failed to process request", s, store, true)

/-- An inhabitant for looking up relay chunks. -/
def zeroEv : zmk_battery_history_entry_event :=
  { entry := ⟨0, 0⟩, entry_index := 0, total_entries := 0, is_last := false }

/-- A sequence of calls to `add_history_entry`, as a fold. -/
def appendFold (N : Nat) (es : List battery_history_entry) (s : BhState) :
    BhState :=
  es.foldl (fun s e => add_history_entry N s e.timestamp e.battery_percentage) s

/-- The spec's threshold example run through the change listener: levels
80, 83, 90, 88 delivered at timestamps 1..4, starting from the empty
buffer, with no periodic tick interleaved. -/
def thresholdRun (N : Nat) : BhState :=
  ([(1, 80), (2, 83), (3, 90), (4, 88)] : List (Nat × Nat)).foldl
    (fun s p => (battery_state_changed_listener N p.1 p.2 s emptyStore 0 0).1)
    (initBh N)

/-! Helper lemmas about the buffer operations. -/

theorem wfBh_initBh (N : Nat) : wfBh N (initBh N) := by
  constructor <;> simp [initBh]

theorem entriesOf_initBh (N : Nat) : entriesOf (initBh N) = [] := by
  simp [entriesOf, initBh]

theorem length_entriesOf (N : Nat) (s : BhState) (hwf : wfBh N s) :
    (entriesOf s).length = s.history_count := by
  obtain ⟨h1, h2⟩ := hwf
  simp only [entriesOf, List.length_take]
  omega

theorem shiftLeft_eq (l : List battery_history_entry) (h : l ≠ []) :
    shiftLeft l = l.drop 1 ++ [l.getLastD zeroEntry] := by
  cases l with
  | nil => exact absurd rfl h
  | cons e t => simp [shiftLeft]

theorem take_succ_set (l : List battery_history_entry) (n : Nat)
    (a : battery_history_entry) (h : n < l.length) :
    (l.set n a).take (n + 1) = l.take n ++ [a] := by
  rw [List.set_eq_take_cons_drop a h, List.take_append_eq_append_take]
  have h1 : (List.take n l).length = n := by
    simp
    omega
  rw [List.take_take]
  simp [h1]

theorem set_append_singleton (l : List battery_history_entry)
    (x a : battery_history_entry) :
    (l ++ [x]).set l.length a = l ++ [a] := by
  induction l with
  | nil => rfl
  | cons e t ih => simp [List.set, ih]

theorem take_set_shift (l : List battery_history_entry)
    (e : battery_history_entry) (N : Nat) (hN : 0 < N) (hlen : l.length = N) :
    ((shiftLeft l).set (N - 1) e).take (N - 1 + 1) = l.drop 1 ++ [e] := by
  have hne : l ≠ [] := by
    intro h
    rw [h] at hlen
    simp at hlen
    omega
  rw [shiftLeft_eq l hne]
  have hdroplen : (l.drop 1).length = N - 1 := by simp [hlen]
  rw [← hdroplen, set_append_singleton]
  have h2 : (l.drop 1 ++ [e]).length = (l.drop 1).length + 1 := by simp
  rw [← h2, List.take_length]

/-- The effect of `add_history_entry` on the visible buffer: at capacity the
oldest entry is dropped; the new entry is appended either way. -/
theorem entriesOf_add (N : Nat) (s : BhState) (ts pct : Nat)
    (hN : 0 < N) (hwf : wfBh N s) :
    entriesOf (add_history_entry N s ts pct) =
      (if s.history_count = N then (entriesOf s).drop 1 else entriesOf s)
        ++ [⟨ts, pct⟩] := by
  obtain ⟨hlen, hle⟩ := hwf
  by_cases hfull : s.history_count ≥ N
  · have hc : s.history_count = N := le_antisymm hle hfull
    simp only [add_history_entry, if_pos hfull, entriesOf]
    rw [take_set_shift s.history ⟨ts, pct⟩ N hN hlen, if_pos hc]
    have htk : s.history.take s.history_count = s.history := by
      rw [hc, ← hlen]
      exact List.take_length s.history
    rw [htk]
  · simp only [add_history_entry, if_neg hfull, entriesOf]
    rw [if_neg (by omega : ¬ s.history_count = N)]
    exact take_succ_set s.history s.history_count ⟨ts, pct⟩ (by omega)

theorem history_count_add (N : Nat) (s : BhState) (ts pct : Nat)
    (hN : 0 < N) (hwf : wfBh N s) :
    (add_history_entry N s ts pct).history_count =
      if s.history_count = N then N else s.history_count + 1 := by
  obtain ⟨hlen, hle⟩ := hwf
  by_cases hfull : s.history_count ≥ N
  · have hc : s.history_count = N := le_antisymm hle hfull
    simp [add_history_entry, if_pos hfull, if_pos hc]
    omega
  · simp [add_history_entry, if_neg hfull,
      if_neg (by omega : ¬ s.history_count = N)]

theorem length_history_add (N : Nat) (s : BhState) (ts pct : Nat)
    (hwf : wfBh N s) :
    (add_history_entry N s ts pct).history.length = N := by
  obtain ⟨hlen, hle⟩ := hwf
  by_cases hfull : s.history_count ≥ N
  · simp only [add_history_entry, if_pos hfull, List.length_set]
    cases hc : s.history with
    | nil => rw [hc] at hlen; simpa using hlen
    | cons e t =>
        rw [hc] at hlen
        simp [shiftLeft]
        simpa using hlen
  · simp only [add_history_entry, if_neg hfull, List.length_set]
    exact hlen

theorem wfBh_add (N : Nat) (s : BhState) (ts pct : Nat)
    (hN : 0 < N) (hwf : wfBh N s) :
    wfBh N (add_history_entry N s ts pct) := by
  refine ⟨length_history_add N s ts pct hwf, ?_⟩
  rw [history_count_add N s ts pct hN hwf]
  obtain ⟨hlen, hle⟩ := hwf
  by_cases hc : s.history_count = N
  · simp [hc]
  · simp [hc]
    omega

/-- The combined effect of a sequence of appends: the buffer keeps the last
`N` of the previously visible entries followed by the appended ones, and the
count saturates at `N`. -/
theorem appendFold_spec (N : Nat) (hN : 0 < N) (es : List battery_history_entry) :
    ∀ s : BhState, wfBh N s →
      wfBh N (appendFold N es s) ∧
      (appendFold N es s).history_count = min (s.history_count + es.length) N ∧
      entriesOf (appendFold N es s) =
        (entriesOf s ++ es).drop (s.history_count + es.length - N) := by
  induction es with
  | nil =>
      intro s hwf
      have hle := hwf.2
      refine ⟨hwf, ?_, ?_⟩
      · simp [appendFold]
        omega
      · simp [appendFold]
        rw [(by omega : s.history_count - N = 0)]
        simp
  | cons e es ih =>
      intro s hwf
      have hstep : appendFold N (e :: es) s =
          appendFold N es (add_history_entry N s e.timestamp e.battery_percentage) := by
        simp [appendFold]
      have hwf' := wfBh_add N s e.timestamp e.battery_percentage hN hwf
      obtain ⟨ih1, ih2, ih3⟩ := ih (add_history_entry N s e.timestamp e.battery_percentage) hwf'
      rw [hstep]
      refine ⟨ih1, ?_, ?_⟩
      · rw [ih2, history_count_add N s e.timestamp e.battery_percentage hN hwf]
        have hle := hwf.2
        by_cases hc : s.history_count = N
        · simp [hc]
        · simp [hc]
          omega
      · rw [ih3, history_count_add N s e.timestamp e.battery_percentage hN hwf,
          entriesOf_add N s e.timestamp e.battery_percentage hN hwf]
        have hle := hwf.2
        by_cases hc : s.history_count = N
        · rw [if_pos hc, if_pos hc]
          have hlenE : (entriesOf s).length = s.history_count :=
            length_entriesOf N s hwf
          have h1 : N + es.length - N = es.length := by omega
          have h2 : s.history_count + (e :: es).length - N = es.length + 1 := by
            rw [hc]
            simp
          rw [h1, h2]
          have hne : 1 ≤ (entriesOf s).length := by omega
          calc ((entriesOf s).drop 1 ++ [e] ++ es).drop es.length
              = ((entriesOf s).drop 1 ++ (e :: es)).drop es.length := by
                simp
            _ = ((entriesOf s ++ (e :: es)).drop 1).drop es.length := by
                rw [List.drop_append_of_le_length hne]
            _ = (entriesOf s ++ (e :: es)).drop (es.length + 1) := by
                rw [List.drop_drop]
                rw [Nat.add_comm 1 es.length]
        · rw [if_neg hc, if_neg hc]
          have h1 : s.history_count + 1 + es.length = s.history_count + (e :: es).length := by
            simp
            omega
          rw [h1]
          congr 1
          simp

/-- The newest visible entry after any append, under well-formedness. -/
theorem getLast_entriesOf_add (N : Nat) (s : BhState) (ts pct : Nat)
    (hN : 0 < N) (hwf : wfBh N s) :
    (entriesOf (add_history_entry N s ts pct)).getLast? = some ⟨ts, pct⟩ := by
  rw [entriesOf_add N s ts pct hN hwf]
  by_cases hc : s.history_count = N
  · rw [if_pos hc, List.getLast?_concat]
  · rw [if_neg hc, List.getLast?_concat]

/-- The slot the change listener compares against
(`history[history_count - 1]`) is the newest visible entry. -/
theorem getLast_entriesOf (N : Nat) (s : BhState) (hwf : wfBh N s)
    (hpos : 0 < s.history_count) :
    (entriesOf s).getLast? =
      some (s.history.getD (s.history_count - 1) zeroEntry) := by
  obtain ⟨hlen, hle⟩ := hwf
  rw [List.getLast?_eq_getElem?, length_entriesOf N s ⟨hlen, hle⟩,
    List.getD_eq_getElem?_getD]
  simp only [entriesOf, List.getElem?_take,
    if_pos (show s.history_count - 1 < s.history_count by omega)]
  have h2 : s.history_count - 1 < s.history.length := by omega
  rw [List.getElem?_eq_getElem h2]
  simp

/-- The buffer component of the change listener as a case split. -/
theorem listener_buffer (N now level : Nat) (s : BhState) (store : Store)
    (rcC rcE : Int) :
    (battery_state_changed_listener N now level s store rcC rcE).1 =
      if s.history_count = 0 then add_history_entry N s now level
      else if 5 ≤ ((level : Int) -
          ((s.history.getD (s.history_count - 1) zeroEntry).battery_percentage
            : Int)).natAbs
        then add_history_entry N s now level
        else s := by
  unfold battery_state_changed_listener
  by_cases h0 : s.history_count = 0
  · simp only [if_pos h0]
  · simp only [if_neg h0]
    split
    · rfl
    · rfl

/-- The buffer component of the periodic tick handler. -/
theorem save_battery_state_fst (N now battery : Nat) (s : BhState)
    (store : Store) (rcC rcE : Int) :
    (save_battery_state N now battery s store rcC rcE).1 =
      add_history_entry N s now battery := rfl

/-! The claims. -/

/-- C1, counterexample: with capacity `N = 2`, a persisted blob declaring
`count = 3` (and an entries payload of 3 entries) is not rejected at load:
the count key is read back without error (`read_cb` result 4, not a failure
code) and the resulting buffer claims 3 entries — it is not left empty. -/
theorem C1_capacity_load_counterexample :
    (load_from_store 2
        ⟨some ⟨4, 3⟩, some [⟨1, 10⟩, ⟨2, 20⟩, ⟨3, 30⟩]⟩
        (initBh 2)).history_count = 3 ∧
    (load_count_key (initBh 2) ⟨4, 3⟩).1 = 4 := by
  decide

/-- C1, amended: the startup load has no capacity check on the declared
count — a well-sized count blob is accepted verbatim even when its value
exceeds `N`, with the handler reporting success.  An entries payload of
more than `N` entries is rejected with `-EINVAL`, which leaves the entry
array untouched but does not reset the already-loaded count, so the buffer
ends up claiming the declared count instead of being left empty. -/
theorem C1_capacity_load_amended (N v : Nat)
    (eb : List battery_history_entry) (s : BhState)
    (hv : v > N) (hebig : eb.length > N) :
    (load_from_store N ⟨some ⟨countSize, v⟩, some eb⟩ s).history_count = v ∧
    (load_from_store N ⟨some ⟨countSize, v⟩, some eb⟩ s).history = s.history ∧
    (load_count_key s ⟨countSize, v⟩).1 = Int.ofNat countSize ∧
    (load_entries_key N { s with history_count := v } eb).1 = -EINVAL := by
  have hsz : eb.length * entrySize > N * entrySize := by
    have hpos : 0 < entrySize := by decide
    exact (Nat.mul_lt_mul_right hpos).mpr hebig
  refine ⟨?_, ?_, ?_, ?_⟩
  · simp [load_from_store, load_count_key, load_entries_key, if_pos hsz]
  · simp [load_from_store, load_count_key, load_entries_key, if_pos hsz]
  · simp [load_count_key]
  · simp [load_entries_key, if_pos hsz]

/-- C1, witness for the amended theorem at `N = 2`, `v = 3`. -/
theorem C1_capacity_load_amended_witness :
    (load_from_store 2 ⟨some ⟨countSize, 3⟩, some [⟨1, 10⟩, ⟨2, 20⟩, ⟨3, 30⟩]⟩
        (initBh 2)).history_count = 3 ∧
    (load_from_store 2 ⟨some ⟨countSize, 3⟩, some [⟨1, 10⟩, ⟨2, 20⟩, ⟨3, 30⟩]⟩
        (initBh 2)).history = (initBh 2).history :=
  have h := C1_capacity_load_amended 2 3 [⟨1, 10⟩, ⟨2, 20⟩, ⟨3, 30⟩] (initBh 2)
    (by decide) (by decide)
  ⟨h.1, h.2.1⟩

/-- C5, counterexample: the length invariant does not survive the startup
load — loading a persisted count of 3 into a capacity-2 buffer leaves
`history_count = 3 > 2`. -/
theorem C5_invariant_counterexample :
    ¬ wfBh 2 (load_from_store 2 ⟨some ⟨4, 3⟩, none⟩ (initBh 2)) := by
  decide

/-- Well-formedness survives a startup load whenever any present,
well-sized count blob declares at most `N` (as every blob this module
itself saves does). -/
theorem wfBh_load (N : Nat) (store : Store) (s : BhState) (hwf : wfBh N s)
    (hstore : ∀ b, store.count_blob = some b → b.len = countSize →
      b.value ≤ N) :
    wfBh N (load_from_store N store s) := by
  obtain ⟨hlen, hle⟩ := hwf
  have h1 : ∀ s1 : BhState, s1.history.length = N → s1.history_count ≤ N →
      wfBh N (match store.entries_blob with
        | none => s1
        | some eb => (load_entries_key N s1 eb).2) := by
    intro s1 hl1 hc1
    cases heb : store.entries_blob with
    | none => exact ⟨hl1, hc1⟩
    | some eb =>
        simp only
        unfold load_entries_key
        by_cases hsz : eb.length * entrySize > N * entrySize
        · rw [if_pos hsz]
          exact ⟨hl1, hc1⟩
        · rw [if_neg hsz]
          have hle2 : eb.length ≤ N := by
            simp [entrySize] at hsz
            omega
          refine ⟨?_, hc1⟩
          simp [hl1]
          omega
  unfold load_from_store
  cases hcb : store.count_blob with
  | none => exact h1 s hlen hle
  | some b =>
      simp only
      unfold load_count_key
      by_cases hbl : b.len ≠ countSize
      · rw [if_pos hbl]
        exact h1 s hlen hle
      · rw [if_neg hbl]
        push_neg at hbl
        exact h1 { s with history_count := b.value } hlen (hstore b hcb hbl)

/-- C5, amended: the invariant `0 ≤ len ≤ N` does hold after `append` and
after `clear` from any well-formed state, and after a startup load from
any store whose (present, well-sized) count blob declares at most `N` —
in particular from anything this module itself persisted.  A load of a
count blob declaring more than `N` violates the upper bound. -/
theorem C5_invariant_amended (N : Nat) (hN : 0 < N) (s : BhState)
    (store : Store) (ts pct : Nat) (rcC rcE : Int) (hwf : wfBh N s)
    (hstore : ∀ b, store.count_blob = some b → b.len = countSize →
      b.value ≤ N) :
    wfBh N (add_history_entry N s ts pct) ∧
    wfBh N (battery_history_clear s store rcC rcE).2.1 ∧
    wfBh N (load_from_store N store s) := by
  refine ⟨wfBh_add N s ts pct hN hwf, ?_, wfBh_load N store s hwf hstore⟩
  exact ⟨hwf.1, by simp [battery_history_clear]⟩

/-- C5, witness for the amended theorem at `N = 2`. -/
theorem C5_invariant_amended_witness :
    wfBh 2 (add_history_entry 2 (initBh 2) 7 50) ∧
    wfBh 2 (battery_history_clear (initBh 2) emptyStore 0 0).2.1 ∧
    wfBh 2 (load_from_store 2 emptyStore (initBh 2)) :=
  C5_invariant_amended 2 (by decide) (initBh 2) emptyStore 7 50 0 0
    (wfBh_initBh 2) (by intro b hb; simp [emptyStore] at hb)

/-- C7: `battery_history_get_entries` rejects `max_entries = 0` with
`-EINVAL` and otherwise returns the first `min(count, max)` visible
entries, oldest first, as a pure read (the buffer state is an unchanged
input of the function). -/
theorem C7_get_entries (N : Nat) (s : BhState) (max_entries : Int)
    (hwf : wfBh N s) :
    (max_entries = 0 →
      battery_history_get_entries s max_entries = .error (-EINVAL)) ∧
    (0 < max_entries →
      battery_history_get_entries s max_entries =
        .ok ((entriesOf s).take max_entries.toNat) ∧
      ∀ l, battery_history_get_entries s max_entries = .ok l →
        l.length = min s.history_count max_entries.toNat) := by
  constructor
  · intro h0
    rw [h0]
    rfl
  · intro hpos
    have hne : ¬ max_entries ≤ 0 := by omega
    have hok : battery_history_get_entries s max_entries =
        .ok (s.history.take (min s.history_count max_entries.toNat)) := by
      unfold battery_history_get_entries
      rw [if_neg hne]
    constructor
    · rw [hok]
      simp only [entriesOf, List.take_take]
      rw [Nat.min_comm]
    · intro l hl
      rw [hok] at hl
      injection hl with hl'
      rw [← hl']
      have := hwf.1
      have := hwf.2
      simp [List.length_take]
      omega

/-- C7, witness at a concrete buffer with 2 entries and `max = 1` / `max = 0`. -/
theorem C7_get_entries_witness :
    battery_history_get_entries
      (appendFold 3 [⟨1, 10⟩, ⟨2, 20⟩] (initBh 3)) 0 = .error (-EINVAL) ∧
    battery_history_get_entries
      (appendFold 3 [⟨1, 10⟩, ⟨2, 20⟩] (initBh 3)) 1 =
      .ok [⟨1, 10⟩] :=
  have h := C7_get_entries 3 (appendFold 3 [⟨1, 10⟩, ⟨2, 20⟩] (initBh 3)) 0
    (by decide)
  have h1 := C7_get_entries 3 (appendFold 3 [⟨1, 10⟩, ⟨2, 20⟩] (initBh 3)) 1
    (by decide)
  ⟨h.1 rfl, by rw [(h1.2 (by decide)).1]; rfl⟩

/-- C9: a remote-procedure request whose payload fails to decode, and one
with an unknown request tag, are both answered with an `ErrorResponse`
carrying a non-empty message; the handler returns `true` (no abort) and
the buffer and store are unchanged. -/
theorem C9_rpc_error_handling (N cur : Nat) (s : BhState) (store : Store)
    (rcC rcE : Int) (t : Nat) :
    battery_history_rpc_handle_request N cur none s store rcC rcE =
      (.error "Failed to decode request", s, store, true) ∧
    battery_history_rpc_handle_request N cur (some (.unknown t)) s store rcC rcE =
      (.error "Failed to process request", s, store, true) ∧
    "Failed to decode request" ≠ "" ∧
    "Failed to process request" ≠ "" := by
  refine ⟨rfl, rfl, by decide, by decide⟩

/-- C10: saving a buffer whose count is 0 writes only the count key: the
save succeeds, the count blob records 0, and the entries blob of the store
is exactly what it was before the save. -/
theorem C10_save_empty_frame (s : BhState) (store : Store) (rcEntries : Int)
    (hc : s.history_count = 0) :
    (save_to_storage s store 0 rcEntries).1 = 0 ∧
    (save_to_storage s store 0 rcEntries).2.count_blob =
      some ⟨countSize, 0⟩ ∧
    (save_to_storage s store 0 rcEntries).2.entries_blob =
      store.entries_blob := by
  unfold save_to_storage
  simp [hc]

/-- C10, witness: saving the cleared state over a store that still holds a
one-entry blob leaves that blob in place. -/
theorem C10_save_empty_frame_witness :
    (save_to_storage (initBh 2) ⟨some ⟨4, 9⟩, some [⟨7, 7⟩]⟩ 0 5).1 = 0 ∧
    (save_to_storage (initBh 2) ⟨some ⟨4, 9⟩, some [⟨7, 7⟩]⟩ 0 5).2.count_blob =
      some ⟨countSize, 0⟩ ∧
    (save_to_storage (initBh 2) ⟨some ⟨4, 9⟩, some [⟨7, 7⟩]⟩ 0 5).2.entries_blob =
      some [⟨7, 7⟩] :=
  C10_save_empty_frame (initBh 2) ⟨some ⟨4, 9⟩, some [⟨7, 7⟩]⟩ 5 (by decide)

/-- C2: from the empty buffer of capacity `N`, a sequence of `N + k`
appends leaves the count at `N` (the count is already `N` after the
`N`-th append) and the visible entries are exactly the last `N` appended
entries, oldest first; a full buffer drops its oldest entry (index 0) on
append; the appended entry is always the newest; and append is a total
function — it always succeeds, the count moving to `min(count + 1, N)`. -/
theorem C2_append_fifo (N k : Nat) (hN : 0 < N)
    (es : List battery_history_entry) (hlen : es.length = N + k) :
    (appendFold N es (initBh N)).history_count = N ∧
    entriesOf (appendFold N es (initBh N)) = es.drop k ∧
    (appendFold N (es.take N) (initBh N)).history_count = N ∧
    (∀ s ts pct, wfBh N s → s.history_count = N →
      entriesOf (add_history_entry N s ts pct) =
        (entriesOf s).drop 1 ++ [⟨ts, pct⟩]) ∧
    (∀ s ts pct, wfBh N s →
      (entriesOf (add_history_entry N s ts pct)).getLast? = some ⟨ts, pct⟩ ∧
      (add_history_entry N s ts pct).history_count =
        min (s.history_count + 1) N) := by
  obtain ⟨h1, h2, h3⟩ := appendFold_spec N hN es (initBh N) (wfBh_initBh N)
  refine ⟨?_, ?_, ?_, ?_, ?_⟩
  · rw [h2]
    simp [initBh, hlen]
  · rw [h3, entriesOf_initBh]
    simp [initBh, hlen]
  · obtain ⟨_, h2t, _⟩ := appendFold_spec N hN (es.take N) (initBh N) (wfBh_initBh N)
    rw [h2t]
    simp [initBh, List.length_take, hlen]
  · intro s ts pct hwf hc
    rw [entriesOf_add N s ts pct hN hwf, if_pos hc]
  · intro s ts pct hwf
    refine ⟨getLast_entriesOf_add N s ts pct hN hwf, ?_⟩
    rw [history_count_add N s ts pct hN hwf]
    have := hwf.2
    by_cases hc : s.history_count = N
    · simp [hc]
    · simp [hc]
      omega

/-- C2, witness: capacity 2, three appends keep the last two entries. -/
theorem C2_append_fifo_witness :
    (appendFold 2 [⟨1, 10⟩, ⟨2, 20⟩, ⟨3, 30⟩] (initBh 2)).history_count = 2 ∧
    entriesOf (appendFold 2 [⟨1, 10⟩, ⟨2, 20⟩, ⟨3, 30⟩] (initBh 2)) =
      [⟨2, 20⟩, ⟨3, 30⟩] :=
  have h := C2_append_fifo 2 1 (by decide) [⟨1, 10⟩, ⟨2, 20⟩, ⟨3, 30⟩]
    (by decide)
  ⟨h.1, h.2.1⟩

/-- C3: saving a well-formed buffer (with both settings writes succeeding)
and then running the startup load on the resulting store reconstructs the
same buffer: same count, same visible entries in the same order.  This
holds for the empty buffer as well, whatever stale entries blob the store
may still hold. -/
theorem C3_save_load_roundtrip (N : Nat) (s : BhState) (store : Store)
    (hwf : wfBh N s) :
    (save_to_storage s store 0 0).1 = 0 ∧
    (load_from_store N (save_to_storage s store 0 0).2
        (initBh N)).history_count = s.history_count ∧
    entriesOf (load_from_store N (save_to_storage s store 0 0).2
        (initBh N)) = entriesOf s := by
  obtain ⟨hlen, hle⟩ := hwf
  by_cases hpos : s.history_count > 0
  · have hsv : save_to_storage s store 0 0 =
        (0, ⟨some ⟨countSize, s.history_count⟩, some (entriesOf s)⟩) := by
      unfold save_to_storage
      simp [hpos]
    rw [hsv]
    have hlenE : (entriesOf s).length = s.history_count :=
      length_entriesOf N s ⟨hlen, hle⟩
    have hnotbig : ¬ (entriesOf s).length * entrySize > N * entrySize := by
      simp [entrySize]
      omega
    have hld : load_from_store N
        ⟨some ⟨countSize, s.history_count⟩, some (entriesOf s)⟩ (initBh N) =
        { history := entriesOf s ++ (initBh N).history.drop (entriesOf s).length,
          history_count := s.history_count } := by
      unfold load_from_store load_count_key load_entries_key
      simp [countSize, hnotbig]
    rw [hld]
    refine ⟨rfl, rfl, ?_⟩
    show List.take s.history_count
        (entriesOf s ++ (initBh N).history.drop (entriesOf s).length) =
      entriesOf s
    rw [← hlenE]
    exact List.take_left _ _
  · have hc0 : s.history_count = 0 := by omega
    have hsv : save_to_storage s store 0 0 =
        (0, ⟨some ⟨countSize, 0⟩, store.entries_blob⟩) := by
      unfold save_to_storage
      simp [hc0]
    rw [hsv]
    refine ⟨rfl, ?_, ?_⟩
    · unfold load_from_store load_count_key
      cases heb : store.entries_blob with
      | none => simp [countSize, hc0]
      | some eb =>
          unfold load_entries_key
          by_cases hsz : eb.length * entrySize > N * entrySize
          · simp [countSize, if_pos hsz, hc0]
          · simp [countSize, if_neg hsz, hc0]
    · unfold load_from_store load_count_key
      cases heb : store.entries_blob with
      | none => simp [countSize, entriesOf, hc0]
      | some eb =>
          unfold load_entries_key
          by_cases hsz : eb.length * entrySize > N * entrySize
          · simp [countSize, if_pos hsz, entriesOf, hc0]
          · simp [countSize, if_neg hsz, entriesOf, hc0]

/-- C3, witness: a two-entry buffer round-trips through a dirty store; the
empty buffer round-trips through a store with a stale entries blob. -/
theorem C3_save_load_roundtrip_witness :
    entriesOf (load_from_store 3
        (save_to_storage (appendFold 3 [⟨1, 10⟩, ⟨2, 20⟩] (initBh 3))
          ⟨some ⟨4, 9⟩, some [⟨7, 7⟩, ⟨8, 8⟩, ⟨9, 9⟩]⟩ 0 0).2
        (initBh 3)) =
      entriesOf (appendFold 3 [⟨1, 10⟩, ⟨2, 20⟩] (initBh 3)) ∧
    (load_from_store 2
        (save_to_storage (initBh 2) ⟨none, some [⟨7, 7⟩, ⟨8, 8⟩, ⟨9, 9⟩]⟩ 0 0).2
        (initBh 2)).history_count = 0 :=
  have h1 := C3_save_load_roundtrip 3
    (appendFold 3 [⟨1, 10⟩, ⟨2, 20⟩] (initBh 3))
    ⟨some ⟨4, 9⟩, some [⟨7, 7⟩, ⟨8, 8⟩, ⟨9, 9⟩]⟩ (by decide)
  have h2 := C3_save_load_roundtrip 2 (initBh 2)
    ⟨none, some [⟨7, 7⟩, ⟨8, 8⟩, ⟨9, 9⟩]⟩ (by decide)
  ⟨h1.2.2, h2.2.1⟩

/-- C6: `battery_history_clear` always leaves the in-memory count at 0 and
returns exactly the persistence code of the count write (0 on success) —
on failure the in-memory clear still stands.  After a successful clear, a
startup load of the persisted state yields count 0 and no visible
entries. -/
theorem C6_clear (N : Nat) (s : BhState) (store : Store)
    (rcCount rcEntries : Int) :
    (battery_history_clear s store rcCount rcEntries).2.1.history_count = 0 ∧
    (battery_history_clear s store rcCount rcEntries).1 = rcCount ∧
    (rcCount = 0 →
      (load_from_store N (battery_history_clear s store rcCount rcEntries).2.2
          (initBh N)).history_count = 0 ∧
      entriesOf (load_from_store N
          (battery_history_clear s store rcCount rcEntries).2.2
          (initBh N)) = []) := by
  by_cases hrc : rcCount = 0
  · have hcl : battery_history_clear s store rcCount rcEntries =
        (0, { s with history_count := 0 },
          { store with count_blob := some ⟨countSize, 0⟩ }) := by
      unfold battery_history_clear save_to_storage
      simp [hrc]
    rw [hcl, hrc]
    refine ⟨rfl, rfl, fun _ => ?_⟩
    unfold load_from_store load_count_key
    cases heb : store.entries_blob with
    | none => simp [countSize, entriesOf]
    | some eb =>
        unfold load_entries_key
        by_cases hsz : eb.length * entrySize > N * entrySize
        · simp [countSize, if_pos hsz, entriesOf]
        · simp [countSize, if_neg hsz, entriesOf]
  · have hcl : battery_history_clear s store rcCount rcEntries =
        (rcCount, { s with history_count := 0 }, store) := by
      unfold battery_history_clear save_to_storage
      simp [hrc]
    rw [hcl]
    exact ⟨rfl, rfl, fun h => absurd h hrc⟩

/-- C6, witness: clearing a two-entry buffer with a failing write (code -5)
still empties the buffer and surfaces -5; with a succeeding write the
persisted state decodes to count 0. -/
theorem C6_clear_witness :
    (battery_history_clear (appendFold 2 [⟨1, 10⟩, ⟨2, 20⟩] (initBh 2))
        ⟨some ⟨4, 2⟩, some [⟨1, 10⟩, ⟨2, 20⟩]⟩ (-5) 0).2.1.history_count = 0 ∧
    (battery_history_clear (appendFold 2 [⟨1, 10⟩, ⟨2, 20⟩] (initBh 2))
        ⟨some ⟨4, 2⟩, some [⟨1, 10⟩, ⟨2, 20⟩]⟩ (-5) 0).1 = -5 ∧
    (load_from_store 2
        (battery_history_clear (appendFold 2 [⟨1, 10⟩, ⟨2, 20⟩] (initBh 2))
          ⟨some ⟨4, 2⟩, some [⟨1, 10⟩, ⟨2, 20⟩]⟩ 0 0).2.2
        (initBh 2)).history_count = 0 :=
  have hfail := C6_clear 2 (appendFold 2 [⟨1, 10⟩, ⟨2, 20⟩] (initBh 2))
    ⟨some ⟨4, 2⟩, some [⟨1, 10⟩, ⟨2, 20⟩]⟩ (-5) 0
  have hok := C6_clear 2 (appendFold 2 [⟨1, 10⟩, ⟨2, 20⟩] (initBh 2))
    ⟨some ⟨4, 2⟩, some [⟨1, 10⟩, ⟨2, 20⟩]⟩ 0 0
  ⟨hfail.1, hfail.2.1, (hok.2.2 rfl).1⟩

/-- Running the threshold example stores exactly the entries for levels 80
and 90, for every capacity of at least 2. -/
theorem thresholdRun_spec (N : Nat) (hN2 : 2 ≤ N) :
    entriesOf (thresholdRun N) = [⟨1, 80⟩, ⟨3, 90⟩] := by
  have hN : 0 < N := by omega
  have hwf0 := wfBh_initBh N
  have hc0 : (initBh N).history_count = 0 := rfl
  have hnot0 : ¬ (initBh N).history_count = N := by
    rw [hc0]
    omega
  have hstep1 :
      (battery_state_changed_listener N 1 80 (initBh N) emptyStore 0 0).1 =
        add_history_entry N (initBh N) 1 80 := by
    rw [listener_buffer, if_pos hc0]
  have hwf1 : wfBh N (add_history_entry N (initBh N) 1 80) :=
    wfBh_add N (initBh N) 1 80 hN hwf0
  have he1 : entriesOf (add_history_entry N (initBh N) 1 80) = [⟨1, 80⟩] := by
    rw [entriesOf_add N (initBh N) 1 80 hN hwf0, if_neg hnot0, entriesOf_initBh]
    rfl
  have hcnt1 : (add_history_entry N (initBh N) 1 80).history_count = 1 := by
    rw [history_count_add N (initBh N) 1 80 hN hwf0, if_neg hnot0, hc0]
  have hlast1 : (add_history_entry N (initBh N) 1 80).history.getD
      ((add_history_entry N (initBh N) 1 80).history_count - 1) zeroEntry =
      ⟨1, 80⟩ := by
    have h := getLast_entriesOf N (add_history_entry N (initBh N) 1 80) hwf1
      (by rw [hcnt1]; omega)
    rw [he1] at h
    have hx : ([⟨1, 80⟩] : List battery_history_entry).getLast? =
        some ⟨1, 80⟩ := rfl
    rw [hx] at h
    injection h with h'
    exact h'.symm
  have hnz1 : ¬ (add_history_entry N (initBh N) 1 80).history_count = 0 := by
    rw [hcnt1]
    omega
  have hstep2 :
      (battery_state_changed_listener N 2 83
        (add_history_entry N (initBh N) 1 80) emptyStore 0 0).1 =
      add_history_entry N (initBh N) 1 80 := by
    rw [listener_buffer, if_neg hnz1, hlast1, if_neg (by decide)]
  have hstep3 :
      (battery_state_changed_listener N 3 90
        (add_history_entry N (initBh N) 1 80) emptyStore 0 0).1 =
      add_history_entry N (add_history_entry N (initBh N) 1 80) 3 90 := by
    rw [listener_buffer, if_neg hnz1, hlast1, if_pos (by decide)]
  have hnot1 : ¬ (add_history_entry N (initBh N) 1 80).history_count = N := by
    rw [hcnt1]
    omega
  have hwf3 : wfBh N (add_history_entry N
      (add_history_entry N (initBh N) 1 80) 3 90) :=
    wfBh_add N (add_history_entry N (initBh N) 1 80) 3 90 hN hwf1
  have he3 : entriesOf (add_history_entry N
      (add_history_entry N (initBh N) 1 80) 3 90) = [⟨1, 80⟩, ⟨3, 90⟩] := by
    rw [entriesOf_add N (add_history_entry N (initBh N) 1 80) 3 90 hN hwf1,
      if_neg hnot1, he1]
    rfl
  have hcnt3 : (add_history_entry N
      (add_history_entry N (initBh N) 1 80) 3 90).history_count = 2 := by
    rw [history_count_add N (add_history_entry N (initBh N) 1 80) 3 90 hN hwf1,
      if_neg hnot1, hcnt1]
  have hlast3 : (add_history_entry N
      (add_history_entry N (initBh N) 1 80) 3 90).history.getD
      ((add_history_entry N
        (add_history_entry N (initBh N) 1 80) 3 90).history_count - 1)
      zeroEntry = ⟨3, 90⟩ := by
    have h := getLast_entriesOf N
      (add_history_entry N (add_history_entry N (initBh N) 1 80) 3 90) hwf3
      (by rw [hcnt3]; omega)
    rw [he3] at h
    have hx : ([⟨1, 80⟩, ⟨3, 90⟩] : List battery_history_entry).getLast? =
        some ⟨3, 90⟩ := rfl
    rw [hx] at h
    injection h with h'
    exact h'.symm
  have hstep4 :
      (battery_state_changed_listener N 4 88
        (add_history_entry N (add_history_entry N (initBh N) 1 80) 3 90)
        emptyStore 0 0).1 =
      add_history_entry N (add_history_entry N (initBh N) 1 80) 3 90 := by
    rw [listener_buffer, if_neg (by rw [hcnt3]; omega), hlast3,
      if_neg (by decide)]
  have hrun : thresholdRun N =
      (battery_state_changed_listener N 4 88
        ((battery_state_changed_listener N 3 90
          ((battery_state_changed_listener N 2 83
            ((battery_state_changed_listener N 1 80 (initBh N)
              emptyStore 0 0).1)
            emptyStore 0 0).1)
          emptyStore 0 0).1)
        emptyStore 0 0).1 := rfl
  rw [hrun, hstep1, hstep2, hstep3, hstep4, he3]

/-- C4: on a level change, an empty buffer records the sample at once;
a non-empty buffer records it exactly when the absolute difference from
the newest stored level is at least the threshold 5; and the example run
[80, 83, 90, 88] from empty, with no periodic tick, stores exactly the
levels [80, 90]. -/
theorem C4_threshold_policy (N now level : Nat) (s : BhState) (store : Store)
    (rcC rcE : Int) (hN : 0 < N) (hwf : wfBh N s) :
    (s.history_count = 0 →
      entriesOf (battery_state_changed_listener N now level s store rcC rcE).1 =
        entriesOf s ++ [⟨now, level⟩]) ∧
    (∀ lastE, (entriesOf s).getLast? = some lastE →
      (5 ≤ ((level : Int) - (lastE.battery_percentage : Int)).natAbs →
        entriesOf (battery_state_changed_listener N now level s store rcC rcE).1 =
          (if s.history_count = N then (entriesOf s).drop 1 else entriesOf s)
            ++ [⟨now, level⟩]) ∧
      (((level : Int) - (lastE.battery_percentage : Int)).natAbs < 5 →
        (battery_state_changed_listener N now level s store rcC rcE).1 = s)) ∧
    (2 ≤ N →
      (entriesOf (thresholdRun N)).map (fun e => e.battery_percentage) =
        [80, 90]) := by
  refine ⟨?_, ?_, ?_⟩
  · intro hc0
    rw [listener_buffer, if_pos hc0,
      entriesOf_add N s now level hN hwf,
      if_neg (show ¬ s.history_count = N by omega)]
  · intro lastE hlastE
    have hc0 : s.history_count ≠ 0 := by
      intro h0
      simp [entriesOf, h0] at hlastE
    have hbr := getLast_entriesOf N s hwf (by omega)
    rw [hlastE] at hbr
    injection hbr with hbr'
    constructor
    · intro h5
      rw [listener_buffer, if_neg hc0, ← hbr', if_pos h5,
        entriesOf_add N s now level hN hwf]
    · intro h5
      rw [listener_buffer, if_neg hc0, ← hbr',
        if_neg (show ¬ 5 ≤ ((level : Int) -
          (lastE.battery_percentage : Int)).natAbs by omega)]
  · intro hN2
    rw [thresholdRun_spec N hN2]
    rfl

/-- C4, witness: at capacity 2, a level change on the empty buffer is
stored at once, and the example run stores levels [80, 90]. -/
theorem C4_threshold_policy_witness :
    entriesOf (battery_state_changed_listener 2 9 77 (initBh 2)
        emptyStore 0 0).1 = [⟨9, 77⟩] ∧
    (entriesOf (thresholdRun 2)).map (fun e => e.battery_percentage) =
      [80, 90] :=
  have h := C4_threshold_policy 2 9 77 (initBh 2) emptyStore 0 0
    (by decide) (by decide)
  ⟨by rw [h.1 rfl]; rfl, h.2.2 (by decide)⟩

/-- The chunk at position `i` of a stream. -/
theorem stream_buffer_getD (buf : List battery_history_entry) (i : Nat)
    (hi : i < buf.length) :
    (stream_buffer buf).getD i zeroEv =
      { entry := { timestamp := (buf.getD i zeroEntry).timestamp,
                   battery_level := (buf.getD i zeroEntry).battery_percentage },
        entry_index := i,
        total_entries := buf.length,
        is_last := decide (i = buf.length - 1) } := by
  unfold stream_buffer
  rw [List.getD_eq_getElem?_getD, List.getElem?_map, List.getElem?_range hi]
  rfl

/-- C8: an append from either trigger source — the periodic tick handler
or an accepted significant level change — produces the state whose full
buffer the relay streams; the stream over any well-formed state's buffer
has one chunk per entry, the `i`-th chunk carrying the `i`-th (oldest
first) entry with `entry_index = i`, `total_entries` equal to the count at
stream start on every chunk, and `is_last` exactly on the final chunk; and
the peripheral listener forwards any chunk to the central transport with
all five fields preserved. -/
theorem C8_relay_stream (N now battery level : Nat) (s : BhState)
    (store : Store) (rcC rcE : Int) (hN : 0 < N) (hwf : wfBh N s) :
    ((save_battery_state N now battery s store rcC rcE).1 =
      add_history_entry N s now battery) ∧
    (s.history_count ≠ 0 →
      5 ≤ ((level : Int) -
        ((s.history.getD (s.history_count - 1) zeroEntry).battery_percentage
          : Int)).natAbs →
      (battery_state_changed_listener N now level s store rcC rcE).1 =
        add_history_entry N s now level) ∧
    (∀ s2 : BhState, wfBh N s2 →
      (stream_buffer (entriesOf s2)).length = s2.history_count ∧
      (∀ i, i < s2.history_count →
        (stream_buffer (entriesOf s2)).getD i zeroEv =
          { entry :=
              { timestamp := ((entriesOf s2).getD i zeroEntry).timestamp,
                battery_level :=
                  ((entriesOf s2).getD i zeroEntry).battery_percentage },
            entry_index := i,
            total_entries := s2.history_count,
            is_last := decide (i = s2.history_count - 1) })) ∧
    (∀ ev, (battery_history_peripheral_listener ev).timestamp =
        ev.entry.timestamp ∧
      (battery_history_peripheral_listener ev).battery_level =
        ev.entry.battery_level ∧
      (battery_history_peripheral_listener ev).entry_index = ev.entry_index ∧
      (battery_history_peripheral_listener ev).total_entries =
        ev.total_entries ∧
      (battery_history_peripheral_listener ev).is_last = ev.is_last) := by
  refine ⟨save_battery_state_fst N now battery s store rcC rcE, ?_, ?_, ?_⟩
  · intro hnz h5
    rw [listener_buffer, if_neg hnz, if_pos h5]
  · intro s2 hwf2
    have hlenE : (entriesOf s2).length = s2.history_count :=
      length_entriesOf N s2 hwf2
    constructor
    · unfold stream_buffer
      rw [List.length_map, List.length_range, hlenE]
    · intro i hi
      rw [stream_buffer_getD (entriesOf s2) i (by omega), hlenE]
  · intro ev
    exact ⟨rfl, rfl, rfl, rfl, rfl⟩

/-- C8, witness: the tick-appended two-entry buffer streams two chunks;
the first chunk of the stream is entry ⟨1, 10⟩ at index 0 of 2. -/
theorem C8_relay_stream_witness :
    (stream_buffer (entriesOf
      (appendFold 3 [⟨1, 10⟩, ⟨2, 20⟩] (initBh 3)))).length =
      (appendFold 3 [⟨1, 10⟩, ⟨2, 20⟩] (initBh 3)).history_count ∧
    (stream_buffer (entriesOf
      (appendFold 3 [⟨1, 10⟩, ⟨2, 20⟩] (initBh 3)))).getD 0 zeroEv =
      { entry := { timestamp := 1, battery_level := 10 },
        entry_index := 0, total_entries := 2, is_last := false } :=
  have h := C8_relay_stream 3 5 50 60 (appendFold 3 [⟨1, 10⟩, ⟨2, 20⟩]
      (initBh 3)) emptyStore 0 0 (by decide) (by decide)
  have h2 := h.2.2.1 (appendFold 3 [⟨1, 10⟩, ⟨2, 20⟩] (initBh 3)) (by decide)
  ⟨h2.1, by rw [h2.2 0 (by decide)]; rfl⟩

